import Mathlib

/-!
# judge-server test fixtures: the LQDOJ bridged checker and the interactor solution

Two programs are embedded.

* `testsuite/bridged_checker_lqdoj/checker.cpp`: `main` reads five `int` values
  `n, a, b, c, d` and reports a verdict through its exit code, standard output and
  the error stream.  `Checker.main` is that function from the point where the five
  values have been extracted.  `int` is the 32-bit two's-complement type of the
  judge's targets; the sums `a + b` and `c + d` are `int` sums and are embedded with
  explicit wraparound modulo `2^32`.  (ISO C++ leaves signed overflow undefined;
  wraparound is what the compiled checker computes.)  The functions take
  mathematical integers; the values an `int` variable can hold are those
  satisfying `Checker.IsInt`.  `Checker.checkSpec` is the checker as the
  specification words it, over the integers, for comparison with `Checker.main`.
* `testsuite/bridged_interactor_siggrade/tests/cpp_ac/seed2.cpp`: `solve` runs a
  binary search over `[1, 2000000000]` against the external primitive `ask`.
  `ask` is not part of the file, so it is a parameter: a state-passing function,
  which covers honest, adversarial and history-dependent judges alike.  `low`,
  `high` and `mid` are `long long`; their arithmetic is embedded with explicit
  wraparound modulo `2^64` and truncating division.  The `while` loop is embedded
  with a fuel argument counting evaluations of the loop condition; the theorems
  show that 32 units always suffice and that the run does not depend on the fuel.
-/

/-! ## Definitions: checker -/

namespace Checker

/-- Smallest value of the C++ type `int`. -/
def INT_MIN : Int := -2147483648

/-- Largest value of the C++ type `int`. -/
def INT_MAX : Int := 2147483647

/-- The integer is representable in the C++ type `int`. -/
def IsInt (x : Int) : Prop := INT_MIN ≤ x ∧ x ≤ INT_MAX

instance (x : Int) : Decidable (IsInt x) := by
  unfold IsInt
  infer_instance

/-- Result of an `int` operation whose mathematical value is `x`: the representative
of `x` modulo `2^32` in `[-2^31, 2^31 - 1]`. -/
def wrap32 (x : Int) : Int := (x + 2147483648) % 4294967296 - 2147483648

/-- Text written by `ostream << int`: decimal digits, with a leading minus sign for
negative values. -/
def putInt (i : Int) : String := Int.repr i

/-- Text written by `std::endl`. -/
def endl : String := "\n"

/-- Text written by `cerr << 0.5` (a `double` under the default stream format). -/
def putHalf : String := "0.5"

/-- Everything observable of one run of the checker. -/
structure Result where
  /-- Value returned from `main`. -/
  exitCode : Int
  /-- Text written to `cout`. -/
  stdout : String
  /-- Text written to `cerr`. -/
  stderr : String
deriving DecidableEq

/-- The body of `main` in `checker.cpp`, after `inp >> n; out >> a >> b; ans >> c >> d`. -/
def main (n a b c d : Int) : Result :=
  if wrap32 (a + b) = wrap32 (c + d) then
    let line := putInt a ++ " + " ++ putInt b ++ " = " ++ putInt c ++ " + " ++ putInt d ++ endl
    if 0 ≤ a ∧ 0 ≤ b then
      { exitCode := 0, stdout := line, stderr := "" }
    else
      { exitCode := 2, stdout := line, stderr := putHalf }
  else
    { exitCode := 1
      stdout := "a + b = " ++ putInt (wrap32 (a + b)) ++ " != " ++ putInt n ++ endl
      stderr := "" }

/-- The checker as section 4.1 of the specification words it, over mathematical
integers: if `a + b != c + d` the report is `a + b = (a+b) != (n)` and the exit code
1; else the report is `(a) + (b) = (c) + (d)`, with exit code 0 and no side output
when `a >= 0 and b >= 0`, and side output `0.5` with exit code 2 otherwise. The
report is the one line written to standard output. -/
def checkSpec (n a b c d : Int) : Result :=
  if a + b ≠ c + d then
    { exitCode := 1
      stdout := "a + b = " ++ putInt (a + b) ++ " != " ++ putInt n ++ "\n"
      stderr := "" }
  else if 0 ≤ a ∧ 0 ≤ b then
    { exitCode := 0
      stdout := putInt a ++ " + " ++ putInt b ++ " = " ++ putInt c ++ " + " ++ putInt d ++ "\n"
      stderr := "" }
  else
    { exitCode := 2
      stdout := putInt a ++ " + " ++ putInt b ++ " = " ++ putInt c ++ " + " ++ putInt d ++ "\n"
      stderr := "0.5" }

end Checker

/-! ## Definitions: interactor -/

namespace Interactor

/-- Result of a `long long` operation whose mathematical value is `x`: the
representative of `x` modulo `2^64` in `[-2^63, 2^63 - 1]`. -/
def wrap64 (x : Int) : Int :=
  (x + 9223372036854775808) % 18446744073709551616 - 9223372036854775808

/-- The integer is representable in the C++ type `long long`. -/
def IsLongLong (x : Int) : Prop := -9223372036854775808 ≤ x ∧ x ≤ 9223372036854775807

instance (x : Int) : Decidable (IsLongLong x) := by
  unfold IsLongLong
  infer_instance

/-- The local variables `low` and `high` of `solve`. -/
structure Bounds where
  low : Int
  high : Int
deriving DecidableEq

/-- The initial values `low = 1, high = 2000000000`. -/
def start : Bounds := { low := 1, high := 2000000000 }

/-- The expression `(low + high) / 2` on `long long`: the sum, then C++ division,
which truncates toward zero. -/
def mid (b : Bounds) : Int := Int.tdiv (wrap64 (b.low + b.high)) 2

/-- What the `if` chain of the loop body does with a response. -/
inductive Step where
  /-- The statement `return;` of the `"OK"` branch. -/
  | ret : Step
  /-- The loop goes on with new bounds. -/
  | next : Bounds → Step
deriving DecidableEq

/-- The `if (res == "OK") … else if (res == "FLOATS") … else …` chain, for the
response `res` to the query `mid b`. -/
def branch (b : Bounds) (res : String) : Step :=
  if res = "OK" then Step.ret
  else if res = "FLOATS" then Step.next { low := b.low, high := wrap64 (mid b - 1) }
  else Step.next { low := wrap64 (mid b + 1), high := b.high }

/-- One executed loop iteration: the bounds at the loop head, the candidate passed
to `ask`, and the response. -/
structure Query where
  bounds : Bounds
  cand : Int
  res : String
deriving DecidableEq

/-- A finished run of `solve`. The function itself returns `void`; the fields are
what an observer of the run sees. -/
structure Run (σ : Type) where
  /-- The iterations executed, in order. -/
  trace : List Query
  /-- The values of `low` and `high` when `solve` returns. -/
  final : Bounds
  /-- Whether `solve` left through the `return;` of the `"OK"` branch (`true`) or
  through a false loop condition (`false`). -/
  viaOK : Bool
  /-- The state of the judge after the last query. -/
  judge : σ

/-- The run that executes the iteration `q` and then continues as `r`. -/
def Run.cons {σ : Type} (q : Query) (r : Run σ) : Run σ := { r with trace := q :: r.trace }

/-- The `while (low <= high)` loop. `fuel` bounds the number of evaluations of the
loop condition; `none` means the bound was hit. -/
def loop {σ : Type} (ask : σ → Int → String × σ) : Nat → σ → Bounds → Option (Run σ)
  | 0, _, _ => none
  | fuel + 1, s, b =>
    if b.low ≤ b.high then
      let r := ask s (mid b)
      let q : Query := { bounds := b, cand := mid b, res := r.1 }
      match branch b r.1 with
      | Step.ret => some { trace := [q], final := b, viaOK := true, judge := r.2 }
      | Step.next b' =>
        (loop ask fuel r.2 b').map (Run.cons q)
    else
      some { trace := [], final := b, viaOK := false, judge := s }

/-- The function `solve`, started with the judge in state `s`. -/
def solve {σ : Type} (ask : σ → Int → String × σ) (s : σ) (fuel : Nat) : Option (Run σ) :=
  loop ask fuel s start

/-- The candidates passed to `ask` during a run, in order. -/
def Run.queries {σ : Type} (r : Run σ) : List Int := r.trace.map Query.cand

/-- The states `(low, high)` the run went through: the bounds at every executed
iteration, and the bounds on return. -/
def Run.states {σ : Type} (r : Run σ) : List Bounds := r.trace.map Query.bounds ++ [r.final]

/-- The bounds at every evaluation of the loop condition, in order: those of the
executed iterations, and, when the run ended on a false condition, the final ones. -/
def Run.heads {σ : Type} (r : Run σ) : List Bounds :=
  r.trace.map Query.bounds ++ (if r.viaOK then [] else [r.final])

/-- What `solve` hands back to its caller. The function is declared `void`, throws
nothing and writes no variable outside its own frame, so on every path this is the
unit value. -/
def Run.result {σ : Type} (_r : Run σ) : Unit := ()

/-- The number of integers in the interval `[low, high]`. -/
def Bounds.size (b : Bounds) : Int := b.high - b.low + 1

/-- The bounds invariant of `solve`: `1 ≤ low`, `high ≤ 2000000000` and
`low ≤ high + 1`. -/
def Inv (b : Bounds) : Prop := 1 ≤ b.low ∧ b.high ≤ 2000000000 ∧ b.low ≤ b.high + 1

/-- An honest judge for the target `T`: it answers `"OK"` exactly to `T`, `"FLOATS"`
to every larger candidate, and to a smaller candidate some token that is neither. -/
def Honest {σ : Type} (ask : σ → Int → String × σ) (T : Int) : Prop :=
  ∀ s x, ((ask s x).1 = "OK" ↔ x = T) ∧ (T < x → (ask s x).1 = "FLOATS") ∧
    (x < T → (ask s x).1 ≠ "FLOATS")

/-- A concrete stateless honest judge, answering `"SINKS"` to candidates below the
target. -/
def judge (T : Int) (s : Unit) (x : Int) : String × Unit :=
  (if x = T then "OK" else if T < x then "FLOATS" else "SINKS", s)

end Interactor

/-! ## Checker: lemmas -/

namespace Checker

theorem wrap32_eq_self {x : Int} (h : IsInt x) : wrap32 x = x := by
  unfold IsInt INT_MIN INT_MAX at h
  unfold wrap32
  omega

theorem wrap32_isInt (x : Int) : IsInt (wrap32 x) := by
  unfold IsInt INT_MIN INT_MAX wrap32
  omega

theorem ite_char_ne {p : Prop} [Decidable p] {x y z : Char} (hx : x ≠ z) (hy : y ≠ z) :
    (if p then x else y) ≠ z := by
  split <;> assumption

theorem digitChar_ne_newline (k : Nat) : Nat.digitChar k ≠ '\n' := by
  unfold Nat.digitChar
  iterate 16 refine ite_char_ne (by decide) ?_
  decide

theorem mem_toDigitsCore (base : Nat) : ∀ (fuel n : Nat) (acc : List Char) (ch : Char),
    ch ∈ Nat.toDigitsCore base fuel n acc → ch ∈ acc ∨ ∃ k, ch = Nat.digitChar k := by
  intro fuel
  induction fuel with
  | zero =>
    intro n acc ch h
    exact Or.inl (by simpa [Nat.toDigitsCore] using h)
  | succ f ih =>
    intro n acc ch h
    simp only [Nat.toDigitsCore] at h
    split at h
    · rcases List.mem_cons.mp h with h | h
      · exact Or.inr ⟨_, h⟩
      · exact Or.inl h
    · rcases ih _ _ _ h with h | h
      · rcases List.mem_cons.mp h with h | h
        · exact Or.inr ⟨_, h⟩
        · exact Or.inl h
      · exact Or.inr h

theorem newline_not_mem_natRepr (k : Nat) : '\n' ∉ (Nat.repr k).data := by
  intro h
  simp only [Nat.repr, List.asString, Nat.toDigits] at h
  rcases mem_toDigitsCore _ _ _ _ _ h with h | ⟨j, h⟩
  · simp at h
  · exact digitChar_ne_newline j h.symm

theorem newline_not_mem_putInt (i : Int) : '\n' ∉ (putInt i).data := by
  unfold putInt
  cases i with
  | ofNat k => exact newline_not_mem_natRepr k
  | negSucc k =>
    simp only [Int.repr, String.data_append, List.mem_append, not_or]
    exact ⟨by decide, newline_not_mem_natRepr _⟩

/-- The branch taken by `main`, in terms of the `int` sums. -/
theorem main_eq_of_sums_eq (n a b c d : Int) (h : wrap32 (a + b) = wrap32 (c + d)) :
    main n a b c d =
      if 0 ≤ a ∧ 0 ≤ b then
        { exitCode := 0
          stdout := putInt a ++ " + " ++ putInt b ++ " = " ++ putInt c ++ " + " ++ putInt d ++ endl
          stderr := "" }
      else
        { exitCode := 2
          stdout := putInt a ++ " + " ++ putInt b ++ " = " ++ putInt c ++ " + " ++ putInt d ++ endl
          stderr := putHalf } := by
  simp [main, h]

theorem main_eq_of_sums_ne (n a b c d : Int) (h : wrap32 (a + b) ≠ wrap32 (c + d)) :
    main n a b c d =
      { exitCode := 1
        stdout := "a + b = " ++ putInt (wrap32 (a + b)) ++ " != " ++ putInt n ++ endl
        stderr := "" } := by
  simp [main, h]

/-- Sums that are equal as integers are equal as `int` sums. -/
theorem wrap32_sums_eq {a b c d : Int} (h : a + b = c + d) :
    wrap32 (a + b) = wrap32 (c + d) := by
  rw [h]

/-- When neither sum overflows, the comparison of the `int` sums is the comparison
of the integer sums. -/
theorem wrap32_sums_eq_iff {a b c d : Int} (hab : IsInt (a + b)) (hcd : IsInt (c + d)) :
    wrap32 (a + b) = wrap32 (c + d) ↔ a + b = c + d := by
  rw [wrap32_eq_self hab, wrap32_eq_self hcd]

/-! ## Checker: the claims -/

/-- Claim C2 (Accepted): for all integers `n, a, b, c, d` with `a + b = c + d`,
`a ≥ 0` and `b ≥ 0`, the checker returns exit code 0 and writes nothing to the error
stream. -/
theorem accepted_exit_zero (n a b c d : Int) (hsum : a + b = c + d) (ha : 0 ≤ a)
    (hb : 0 ≤ b) :
    (main n a b c d).exitCode = 0 ∧ (main n a b c d).stderr = "" := by
  rw [main_eq_of_sums_eq n a b c d (wrap32_sums_eq hsum), if_pos ⟨ha, hb⟩]
  exact ⟨rfl, rfl⟩

/-- Scenario 1 of the specification, `n = 5, a = 2, b = 3, c = 4, d = 1`: exit code
0, nothing on the error stream, and the line `2 + 3 = 4 + 1` on standard output. -/
theorem accepted_exit_zero_witness :
    ((main 5 2 3 4 1).exitCode = 0 ∧ (main 5 2 3 4 1).stderr = "") ∧
      (main 5 2 3 4 1).stdout = "2 + 3 = 4 + 1\n" :=
  ⟨accepted_exit_zero 5 2 3 4 1 (by decide) (by decide) (by decide), by decide⟩

/-- Claim C3 (Partial Credit): for all integers `n, a, b, c, d` with `a + b = c + d`
and `a < 0` or `b < 0`, the checker returns exit code 2 and the error stream holds
exactly the text `0.5`. -/
theorem negative_operand_exit_two (n a b c d : Int) (hsum : a + b = c + d) (hneg : a < 0 ∨ b < 0) :
    (main n a b c d).exitCode = 2 ∧ (main n a b c d).stderr = "0.5" := by
  have hcond : ¬ (0 ≤ a ∧ 0 ≤ b) := by omega
  rw [main_eq_of_sums_eq n a b c d (wrap32_sums_eq hsum), if_neg hcond]
  exact ⟨rfl, rfl⟩

/-- Scenario 2 of the specification, `n = 5, a = -2, b = 7, c = 1, d = 4`: exit code
2 and `0.5` on the error stream. -/
theorem negative_operand_exit_two_witness :
    (main 5 (-2) 7 1 4).exitCode = 2 ∧ (main 5 (-2) 7 1 4).stderr = "0.5" :=
  negative_operand_exit_two 5 (-2) 7 1 4 (by decide) (by decide)

/-- Claim C4 as stated fails: `a = 2147483647, b = 1, c = -2147483648, d = 0` are
`int` values whose integer sums `2147483648` and `-2147483648` differ, yet the `int`
sum `a + b` wraps to `-2147483648`, the comparison in `main` succeeds and the run is
Accepted with the line `2147483647 + 1 = -2147483648 + 0`. -/
theorem wrong_answer_counterexample :
    (IsInt 5 ∧ IsInt 2147483647 ∧ IsInt 1 ∧ IsInt (-2147483648) ∧ IsInt 0) ∧
      (2147483647 : Int) + 1 ≠ -2147483648 + 0 ∧
      ¬ ((main 5 2147483647 1 (-2147483648) 0).exitCode = 1 ∧
          (main 5 2147483647 1 (-2147483648) 0).stdout =
            "a + b = " ++ putInt (2147483647 + 1) ++ " != " ++ putInt 5 ++ "\n") ∧
      main 5 2147483647 1 (-2147483648) 0 =
        { exitCode := 0, stdout := "2147483647 + 1 = -2147483648 + 0\n", stderr := "" } := by
  decide

/-- Claim C4 (Wrong Answer), amended: for all `n, a, b, c, d` such that neither sum
overflows (`a + b` and `c + d` both lie in `[-2^31, 2^31 - 1]`) and `a + b ≠ c + d`,
the checker returns exit code 1 and its standard output is exactly the line
`a + b = S != N`, with `S` the decimal rendering of `a + b` and `N` that of `n`. -/
theorem wrong_answer_exit_one (n a b c d : Int) (hab : IsInt (a + b)) (hcd : IsInt (c + d))
    (hsum : a + b ≠ c + d) :
    (main n a b c d).exitCode = 1 ∧
      (main n a b c d).stdout = "a + b = " ++ putInt (a + b) ++ " != " ++ putInt n ++ "\n" := by
  have hne : wrap32 (a + b) ≠ wrap32 (c + d) := fun h => hsum ((wrap32_sums_eq_iff hab hcd).mp h)
  rw [main_eq_of_sums_ne n a b c d hne, wrap32_eq_self hab]
  exact ⟨rfl, rfl⟩

/-- Scenario 3 of the specification, `n = 5, a = 2, b = 2, c = 4, d = 1`: exit code
1 and the line `a + b = 4 != 5`. -/
theorem wrong_answer_exit_one_witness :
    (main 5 2 2 4 1).exitCode = 1 ∧ (main 5 2 2 4 1).stdout = "a + b = 4 != 5\n" :=
  wrong_answer_exit_one 5 2 2 4 1 (by decide) (by decide) (by decide)

/-- Claim C5 as stated fails: `a = -2147483648, b = -1, c = 2147483647, d = 0` are
`int` values with different integer sums (`-2147483649` and `2147483647`), so the
claim gives exit code 1; the `int` sum `a + b` wraps to `2147483647`, and `main`
returns 2. -/
theorem taxonomy_counterexample :
    (IsInt 5 ∧ IsInt (-2147483648) ∧ IsInt (-1) ∧ IsInt 2147483647 ∧ IsInt 0) ∧
      ¬ ((main 5 (-2147483648) (-1) 2147483647 0).exitCode = 1 ↔
          (-2147483648 : Int) + -1 ≠ 2147483647 + 0) ∧
      (main 5 (-2147483648) (-1) 2147483647 0).exitCode = 2 := by
  decide

/-- Claim C5 (verdict taxonomy), amended: for all `n, a, b, c, d` such that neither
sum overflows (`a + b` and `c + d` both lie in `[-2^31, 2^31 - 1]`), the exit code
is 0, 1 or 2; it is 1 exactly when `a + b ≠ c + d`, 2 exactly when `a + b = c + d`
and (`a < 0` or `b < 0`), and 0 exactly when `a + b = c + d`, `a ≥ 0` and `b ≥ 0`. -/
theorem taxonomy_exact (n a b c d : Int) (hab : IsInt (a + b)) (hcd : IsInt (c + d)) :
    ((main n a b c d).exitCode = 0 ∨ (main n a b c d).exitCode = 1 ∨
        (main n a b c d).exitCode = 2) ∧
      ((main n a b c d).exitCode = 1 ↔ a + b ≠ c + d) ∧
      ((main n a b c d).exitCode = 2 ↔ a + b = c + d ∧ (a < 0 ∨ b < 0)) ∧
      ((main n a b c d).exitCode = 0 ↔ a + b = c + d ∧ 0 ≤ a ∧ 0 ≤ b) := by
  by_cases hsum : a + b = c + d
  · rw [main_eq_of_sums_eq n a b c d (wrap32_sums_eq hsum)]
    by_cases hcond : 0 ≤ a ∧ 0 ≤ b
    · rw [if_pos hcond]
      simp [hsum, hcond]
    · rw [if_neg hcond]
      have hneg : a < 0 ∨ b < 0 := by omega
      simp [hsum, hcond, hneg]
  · have hne : wrap32 (a + b) ≠ wrap32 (c + d) :=
      fun h => hsum ((wrap32_sums_eq_iff hab hcd).mp h)
    rw [main_eq_of_sums_ne n a b c d hne]
    simp [hsum]

/-- The three scenarios of the specification satisfy the taxonomy; shown at
scenario 2. -/
theorem taxonomy_exact_witness :
    (IsInt ((-2 : Int) + 7) ∧ IsInt ((1 : Int) + 4)) ∧
      ((main 5 (-2) 7 1 4).exitCode = 0 ∨ (main 5 (-2) 7 1 4).exitCode = 1 ∨
        (main 5 (-2) 7 1 4).exitCode = 2) ∧
      ((main 5 (-2) 7 1 4).exitCode = 1 ↔ (-2 : Int) + 7 ≠ 1 + 4) ∧
      ((main 5 (-2) 7 1 4).exitCode = 2 ↔ (-2 : Int) + 7 = 1 + 4 ∧ ((-2 : Int) < 0 ∨ (7 : Int) < 0)) ∧
      ((main 5 (-2) 7 1 4).exitCode = 0 ↔ (-2 : Int) + 7 = 1 + 4 ∧ (0 : Int) ≤ -2 ∧ (0 : Int) ≤ 7) :=
  ⟨by decide, taxonomy_exact 5 (-2) 7 1 4 (by decide) (by decide)⟩

/-- Claim C6 (the verdict does not depend on `n`): for all `a, b, c, d` and any two
values `n, n'`, the two runs return the same exit code and write the same text to
the error stream; whenever the verdict is not Wrong Answer, and in particular
whenever `a + b = c + d`, they also write the same standard-output line. -/
theorem verdict_independent_of_n (n n' a b c d : Int) :
    (main n a b c d).exitCode = (main n' a b c d).exitCode ∧
      (main n a b c d).stderr = (main n' a b c d).stderr ∧
      ((main n a b c d).exitCode ≠ 1 → (main n a b c d).stdout = (main n' a b c d).stdout) ∧
      (a + b = c + d → (main n a b c d).stdout = (main n' a b c d).stdout) := by
  by_cases h : wrap32 (a + b) = wrap32 (c + d)
  · rw [main_eq_of_sums_eq n a b c d h, main_eq_of_sums_eq n' a b c d h]
    simp
  · rw [main_eq_of_sums_ne n a b c d h, main_eq_of_sums_ne n' a b c d h]
    refine ⟨rfl, rfl, fun hx => absurd rfl hx, fun hsum => absurd (wrap32_sums_eq hsum) h⟩

/-- Claim C7 (stream discipline): for all `n, a, b, c, d` the standard output is
exactly one newline-terminated line (a text without newline, followed by one
newline); the error stream is non-empty exactly when the exit code is 2, and it is
empty when the exit code is 0 or 1. -/
theorem stream_discipline (n a b c d : Int) :
    (∃ line : String, (main n a b c d).stdout = line ++ "\n" ∧ '\n' ∉ line.data) ∧
      ((main n a b c d).stderr ≠ "" ↔ (main n a b c d).exitCode = 2) ∧
      ((main n a b c d).exitCode = 0 ∨ (main n a b c d).exitCode = 1 →
        (main n a b c d).stderr = "") := by
  by_cases h : wrap32 (a + b) = wrap32 (c + d)
  · rw [main_eq_of_sums_eq n a b c d h]
    have hline : '\n' ∉
        (putInt a ++ " + " ++ putInt b ++ " = " ++ putInt c ++ " + " ++ putInt d).data := by
      simp only [String.data_append, List.mem_append, not_or]
      exact ⟨⟨⟨⟨⟨⟨newline_not_mem_putInt a, by decide⟩, newline_not_mem_putInt b⟩, by decide⟩,
        newline_not_mem_putInt c⟩, by decide⟩, newline_not_mem_putInt d⟩
    by_cases hcond : 0 ≤ a ∧ 0 ≤ b
    · rw [if_pos hcond]
      exact ⟨⟨_, rfl, hline⟩, by simp, fun _ => rfl⟩
    · rw [if_neg hcond]
      refine ⟨⟨_, rfl, hline⟩, ?_, ?_⟩
      · simp only [iff_true]
        decide
      · intro hx
        have h2 : (2 : Int) ≠ 0 ∧ (2 : Int) ≠ 1 := by decide
        rcases hx with hx | hx
        · exact absurd hx h2.1
        · exact absurd hx h2.2
  · rw [main_eq_of_sums_ne n a b c d h]
    refine ⟨⟨"a + b = " ++ putInt (wrap32 (a + b)) ++ " != " ++ putInt n, rfl, ?_⟩, by simp,
      fun _ => rfl⟩
    simp only [String.data_append, List.mem_append, not_or]
    exact ⟨⟨⟨by decide, newline_not_mem_putInt _⟩, by decide⟩, newline_not_mem_putInt n⟩

/-- Claim C8 (report on matching sums): for all `n, a, b, c, d` with `a + b = c + d`,
whatever the signs of `a` and `b`, the standard-output line is exactly
`A + B = C + D`, the decimal renderings of `a, b, c, d` in that order. -/
theorem report_on_matching_sums (n a b c d : Int) (hsum : a + b = c + d) :
    (main n a b c d).stdout =
      putInt a ++ " + " ++ putInt b ++ " = " ++ putInt c ++ " + " ++ putInt d ++ "\n" := by
  rw [main_eq_of_sums_eq n a b c d (wrap32_sums_eq hsum)]
  split <;> rfl

/-- The report at `n = 5, a = -2, b = 7, c = 1, d = 4` (Partial Credit) is the line
`-2 + 7 = 1 + 4`. -/
theorem report_on_matching_sums_witness :
    (main 5 (-2) 7 1 4).stdout = "-2 + 7 = 1 + 4\n" ∧
      (main 5 (-2) 7 1 4).stdout =
        putInt (-2) ++ " + " ++ putInt 7 ++ " = " ++ putInt 1 ++ " + " ++ putInt 4 ++ "\n" :=
  ⟨by decide, report_on_matching_sums 5 (-2) 7 1 4 (by decide)⟩

end Checker

/-! ## Interactor: lemmas -/

namespace Interactor

theorem wrap64_eq_self {x : Int} (h : IsLongLong x) : wrap64 x = x := by
  unfold IsLongLong at h
  unfold wrap64
  omega

theorem mid_eq_tdiv {b : Bounds} (h : IsLongLong (b.low + b.high)) :
    mid b = Int.tdiv (b.low + b.high) 2 := by
  unfold mid
  rw [wrap64_eq_self h]

theorem tdiv_two_bounds (x : Int) : 2 * Int.tdiv x 2 ≤ x + 1 ∧ x - 1 ≤ 2 * Int.tdiv x 2 := by
  rcases Int.le_total 0 x with h | h
  · rw [Int.tdiv_eq_ediv h (by decide)]
    omega
  · have hneg : Int.tdiv x 2 = -((-x) / 2) := by
      have h1 : Int.tdiv (-(-x)) 2 = -(Int.tdiv (-x) 2) := Int.neg_tdiv (-x) 2
      rw [neg_neg] at h1
      rw [h1, Int.tdiv_eq_ediv (by omega) (by decide)]
    rw [hneg]
    omega

theorem start_inv : Inv start := by
  unfold Inv start
  decide

theorem mid_of_inv {b : Bounds} (hinv : Inv b) (hle : b.low ≤ b.high) :
    mid b = (b.low + b.high) / 2 := by
  unfold Inv at hinv
  have hll : IsLongLong (b.low + b.high) := by
    unfold IsLongLong
    omega
  rw [mid_eq_tdiv hll, Int.tdiv_eq_ediv (by omega) (by decide)]

theorem mid_bounds {b : Bounds} (hinv : Inv b) (hle : b.low ≤ b.high) :
    b.low ≤ mid b ∧ mid b ≤ b.high := by
  rw [mid_of_inv hinv hle]
  omega

theorem branch_ok (b : Bounds) : branch b "OK" = Step.ret := by
  simp [branch]

theorem branch_floats (b : Bounds) :
    branch b "FLOATS" = Step.next { low := b.low, high := wrap64 (mid b - 1) } := by
  simp [branch]

theorem branch_other (b : Bounds) {res : String} (h1 : res ≠ "OK") (h2 : res ≠ "FLOATS") :
    branch b res = Step.next { low := wrap64 (mid b + 1), high := b.high } := by
  simp [branch, h1, h2]

/-- The loop condition is false: `solve` returns without a query. -/
theorem loop_exit {σ : Type} (ask : σ → Int → String × σ) (fuel : Nat) (s : σ) {b : Bounds}
    (h : ¬ b.low ≤ b.high) :
    loop ask (fuel + 1) s b = some { trace := [], final := b, viaOK := false, judge := s } := by
  simp [loop, h]

/-- The response is `"OK"`: `solve` returns after this query. -/
theorem loop_ok {σ : Type} (ask : σ → Int → String × σ) (fuel : Nat) (s : σ) {b : Bounds}
    (h : b.low ≤ b.high) (hres : (ask s (mid b)).1 = "OK") :
    loop ask (fuel + 1) s b =
      some { trace := [{ bounds := b, cand := mid b, res := "OK" }], final := b, viaOK := true,
             judge := (ask s (mid b)).2 } := by
  simp [loop, h, hres, branch_ok]

/-- The response is `"FLOATS"`: the loop goes on with `high = mid - 1`. -/
theorem loop_floats {σ : Type} (ask : σ → Int → String × σ) (fuel : Nat) (s : σ) {b : Bounds}
    (h : b.low ≤ b.high) (hres : (ask s (mid b)).1 = "FLOATS") :
    loop ask (fuel + 1) s b =
      (loop ask fuel (ask s (mid b)).2 { low := b.low, high := wrap64 (mid b - 1) }).map
        (Run.cons { bounds := b, cand := mid b, res := "FLOATS" }) := by
  simp [loop, h, hres, branch_floats]

/-- Any other response: the loop goes on with `low = mid + 1`. -/
theorem loop_other {σ : Type} (ask : σ → Int → String × σ) (fuel : Nat) (s : σ) {b : Bounds}
    (h : b.low ≤ b.high) (h1 : (ask s (mid b)).1 ≠ "OK") (h2 : (ask s (mid b)).1 ≠ "FLOATS") :
    loop ask (fuel + 1) s b =
      (loop ask fuel (ask s (mid b)).2 { low := wrap64 (mid b + 1), high := b.high }).map
        (Run.cons { bounds := b, cand := mid b, res := (ask s (mid b)).1 }) := by
  simp [loop, h, branch_other b h1 h2]

/-- After `"FLOATS"` the invariant holds again and the interval is at most half as
long. -/
theorem inv_floats {b : Bounds} (hinv : Inv b) (hle : b.low ≤ b.high) :
    wrap64 (mid b - 1) = mid b - 1 ∧ Inv { low := b.low, high := mid b - 1 } ∧
      2 * ((mid b - 1) - b.low + 1) ≤ b.high - b.low + 1 := by
  have hm := mid_of_inv hinv hle
  unfold Inv at hinv ⊢
  have hw : IsLongLong (mid b - 1) := by
    unfold IsLongLong
    omega
  refine ⟨wrap64_eq_self hw, ?_, ?_⟩
  · simp only
    omega
  · omega

/-- After a response other than `"OK"` and `"FLOATS"` the invariant holds again and
the interval is at most half as long. -/
theorem inv_other {b : Bounds} (hinv : Inv b) (hle : b.low ≤ b.high) :
    wrap64 (mid b + 1) = mid b + 1 ∧ Inv { low := mid b + 1, high := b.high } ∧
      2 * (b.high - (mid b + 1) + 1) ≤ b.high - b.low + 1 := by
  have hm := mid_of_inv hinv hle
  unfold Inv at hinv ⊢
  have hw : IsLongLong (mid b + 1) := by
    unfold IsLongLong
    omega
  refine ⟨wrap64_eq_self hw, ?_, ?_⟩
  · simp only
    omega
  · omega

theorem trace_cons {σ : Type} (q : Query) (r : Run σ) :
    (Run.cons q r).trace = q :: r.trace := rfl

theorem final_cons {σ : Type} (q : Query) (r : Run σ) : (Run.cons q r).final = r.final := rfl

theorem viaOK_cons {σ : Type} (q : Query) (r : Run σ) : (Run.cons q r).viaOK = r.viaOK := rfl

/-- Termination for an arbitrary judge: from bounds satisfying the invariant whose
interval holds fewer than `2^k` integers, the loop ends after at most `k` queries,
with the same run for every fuel above `k`. -/
theorem loop_terminates {σ : Type} (ask : σ → Int → String × σ) :
    ∀ (k : Nat) (s : σ) (b : Bounds), Inv b → b.high - b.low + 1 < 2 ^ k →
      ∃ r : Run σ, (∀ fuel, k < fuel → loop ask fuel s b = some r) ∧ r.trace.length ≤ k := by
  intro k
  induction k with
  | zero =>
    intro s b _ hsize
    have hgt : ¬ b.low ≤ b.high := by
      simp only [pow_zero] at hsize
      omega
    refine ⟨{ trace := [], final := b, viaOK := false, judge := s }, ?_, Nat.le_refl 0⟩
    intro fuel hfuel
    obtain ⟨f, rfl⟩ : ∃ f, fuel = f + 1 := ⟨fuel - 1, by omega⟩
    exact loop_exit ask f s hgt
  | succ k ih =>
    intro s b hinv hsize
    rw [pow_succ] at hsize
    by_cases hle : b.low ≤ b.high
    · by_cases hok : (ask s (mid b)).1 = "OK"
      · refine ⟨{ trace := [{ bounds := b, cand := mid b, res := "OK" }], final := b,
                  viaOK := true, judge := (ask s (mid b)).2 }, fun fuel hfuel => ?_, ?_⟩
        · obtain ⟨f, rfl⟩ : ∃ f, fuel = f + 1 := ⟨fuel - 1, by omega⟩
          exact loop_ok ask f s hle hok
        · simp
      · by_cases hfl : (ask s (mid b)).1 = "FLOATS"
        · obtain ⟨hw, hinv', hhalf⟩ := inv_floats hinv hle
          have hsize' : (mid b - 1) - b.low + 1 < 2 ^ k := by
            generalize (2 : Int) ^ k = P at hsize
            omega
          obtain ⟨r', hr', hlen⟩ := ih (ask s (mid b)).2 _ hinv' hsize'
          refine ⟨Run.cons { bounds := b, cand := mid b, res := "FLOATS" } r',
            fun fuel hfuel => ?_, ?_⟩
          · obtain ⟨f, rfl⟩ : ∃ f, fuel = f + 1 := ⟨fuel - 1, by omega⟩
            rw [loop_floats ask f s hle hfl, hw, hr' f (by omega)]
            rfl
          · rw [trace_cons, List.length_cons]
            omega
        · obtain ⟨hw, hinv', hhalf⟩ := inv_other hinv hle
          have hsize' : b.high - (mid b + 1) + 1 < 2 ^ k := by
            generalize (2 : Int) ^ k = P at hsize
            omega
          obtain ⟨r', hr', hlen⟩ := ih (ask s (mid b)).2 _ hinv' hsize'
          refine ⟨Run.cons { bounds := b, cand := mid b, res := (ask s (mid b)).1 } r',
            fun fuel hfuel => ?_, ?_⟩
          · obtain ⟨f, rfl⟩ : ∃ f, fuel = f + 1 := ⟨fuel - 1, by omega⟩
            rw [loop_other ask f s hle hok hfl, hw, hr' f (by omega)]
            rfl
          · rw [trace_cons, List.length_cons]
            omega
    · refine ⟨{ trace := [], final := b, viaOK := false, judge := s }, ?_, Nat.zero_le _⟩
      intro fuel hfuel
      obtain ⟨f, rfl⟩ : ∃ f, fuel = f + 1 := ⟨fuel - 1, by omega⟩
      exact loop_exit ask f s hle

/-- Termination of `solve` for an arbitrary judge: one run, reached with every fuel
of at least 32, with at most 31 queries. -/
theorem solve_terminates {σ : Type} (ask : σ → Int → String × σ) (s : σ) :
    ∃ r : Run σ, (∀ fuel, 32 ≤ fuel → solve ask s fuel = some r) ∧ r.trace.length ≤ 31 := by
  have hsize : start.high - start.low + 1 < (2 : Int) ^ 31 := by
    unfold start
    norm_num
  obtain ⟨r, hr, hlen⟩ := loop_terminates ask 31 s start start_inv hsize
  exact ⟨r, fun fuel hfuel => hr fuel (by omega), hlen⟩

/-- The invariant along a run: every executed iteration starts from bounds that
satisfy the invariant, with `low ≤ high`, and queries their midpoint; the bounds on
return satisfy the invariant. -/
theorem loop_inv {σ : Type} (ask : σ → Int → String × σ) :
    ∀ (fuel : Nat) (s : σ) (b : Bounds) (r : Run σ), Inv b → loop ask fuel s b = some r →
      (∀ q ∈ r.trace, Inv q.bounds ∧ q.bounds.low ≤ q.bounds.high ∧ q.cand = mid q.bounds) ∧
        Inv r.final := by
  intro fuel
  induction fuel with
  | zero =>
    intro s b r _ hr
    simp [loop] at hr
  | succ f ih =>
    intro s b r hinv hr
    by_cases hle : b.low ≤ b.high
    · by_cases hok : (ask s (mid b)).1 = "OK"
      · rw [loop_ok ask f s hle hok] at hr
        cases hr
        refine ⟨fun q hq => ?_, hinv⟩
        rw [List.mem_singleton] at hq
        subst hq
        exact ⟨hinv, hle, rfl⟩
      · by_cases hfl : (ask s (mid b)).1 = "FLOATS"
        · obtain ⟨hw, hinv', _⟩ := inv_floats hinv hle
          rw [loop_floats ask f s hle hfl, hw] at hr
          obtain ⟨r', hr', rfl⟩ := Option.map_eq_some'.mp hr
          obtain ⟨htr, hfin⟩ := ih _ _ r' hinv' hr'
          refine ⟨fun q hq => ?_, hfin⟩
          rw [trace_cons, List.mem_cons] at hq
          rcases hq with rfl | hq
          · exact ⟨hinv, hle, rfl⟩
          · exact htr q hq
        · obtain ⟨hw, hinv', _⟩ := inv_other hinv hle
          rw [loop_other ask f s hle hok hfl, hw] at hr
          obtain ⟨r', hr', rfl⟩ := Option.map_eq_some'.mp hr
          obtain ⟨htr, hfin⟩ := ih _ _ r' hinv' hr'
          refine ⟨fun q hq => ?_, hfin⟩
          rw [trace_cons, List.mem_cons] at hq
          rcases hq with rfl | hq
          · exact ⟨hinv, hle, rfl⟩
          · exact htr q hq
    · rw [loop_exit ask f s hle] at hr
      cases hr
      exact ⟨fun q hq => absurd hq (List.not_mem_nil q), hinv⟩

/-- Against an honest judge whose target lies within the bounds, a finished run
left through `return;`, its last query is the target and was answered `"OK"`, and
no earlier query was the target or was answered `"OK"`. -/
theorem loop_honest {σ : Type} (ask : σ → Int → String × σ) (T : Int) (hon : Honest ask T) :
    ∀ (fuel : Nat) (s : σ) (b : Bounds) (r : Run σ), Inv b → b.low ≤ T → T ≤ b.high →
      loop ask fuel s b = some r →
      r.viaOK = true ∧ ∃ pre q, r.trace = pre ++ [q] ∧ q.cand = T ∧ q.res = "OK" ∧
        ∀ p ∈ pre, p.cand ≠ T ∧ p.res ≠ "OK" := by
  intro fuel
  induction fuel with
  | zero =>
    intro s b r _ _ _ hr
    simp [loop] at hr
  | succ f ih =>
    intro s b r hinv hlo hhi hr
    have hle : b.low ≤ b.high := le_trans hlo hhi
    obtain ⟨hOK, hFl, hLow⟩ := hon s (mid b)
    by_cases hok : (ask s (mid b)).1 = "OK"
    · rw [loop_ok ask f s hle hok] at hr
      cases hr
      exact ⟨rfl, [], _, rfl, hOK.mp hok, rfl, fun p hp => absurd hp (List.not_mem_nil p)⟩
    · have hne : mid b ≠ T := fun h => hok (hOK.mpr h)
      by_cases hfl : (ask s (mid b)).1 = "FLOATS"
      · have hgt : T < mid b := by
          rcases lt_trichotomy (mid b) T with h | h | h
          · exact absurd hfl (hLow h)
          · exact absurd h hne
          · exact h
        obtain ⟨hw, hinv', _⟩ := inv_floats hinv hle
        rw [loop_floats ask f s hle hfl, hw] at hr
        obtain ⟨r', hr', rfl⟩ := Option.map_eq_some'.mp hr
        obtain ⟨hvia, pre, q, htr, hq1, hq2, hpre⟩ :=
          ih _ _ r' hinv' hlo (show T ≤ mid b - 1 by omega) hr'
        refine ⟨hvia, { bounds := b, cand := mid b, res := "FLOATS" } :: pre, q, ?_, hq1, hq2, ?_⟩
        · rw [trace_cons, htr, List.cons_append]
        · intro p hp
          rcases List.mem_cons.mp hp with rfl | hp
          · exact ⟨hne, show "FLOATS" ≠ "OK" by decide⟩
          · exact hpre p hp
      · have hlt : mid b < T := by
          rcases lt_trichotomy (mid b) T with h | h | h
          · exact h
          · exact absurd h hne
          · exact absurd (hFl h) hfl
        obtain ⟨hw, hinv', _⟩ := inv_other hinv hle
        rw [loop_other ask f s hle hok hfl, hw] at hr
        obtain ⟨r', hr', rfl⟩ := Option.map_eq_some'.mp hr
        obtain ⟨hvia, pre, q, htr, hq1, hq2, hpre⟩ :=
          ih _ _ r' hinv' (show mid b + 1 ≤ T by omega) hhi hr'
        refine ⟨hvia, { bounds := b, cand := mid b, res := (ask s (mid b)).1 } :: pre, q, ?_,
          hq1, hq2, ?_⟩
        · rw [trace_cons, htr, List.cons_append]
        · intro p hp
          rcases List.mem_cons.mp hp with rfl | hp
          · exact ⟨hne, hok⟩
          · exact hpre p hp

theorem judge_honest (T : Int) : Honest (judge T) T := by
  intro s x
  unfold judge
  refine ⟨?_, ?_, ?_⟩
  · by_cases h : x = T
    · simp [h]
    · by_cases h2 : T < x <;> simp [h, h2]
  · intro h
    have hne : x ≠ T := by omega
    simp [hne, h]
  · intro h
    have hne : x ≠ T := by omega
    have hnlt : ¬ T < x := by omega
    simp [hne, hnlt]

/-- A finished run starts in the bounds the loop was entered with. -/
theorem loop_head {σ : Type} (ask : σ → Int → String × σ) (fuel : Nat) (s : σ) (b : Bounds)
    (r : Run σ) (hr : loop ask fuel s b = some r) : r.states.head? = some b := by
  cases fuel with
  | zero => simp [loop] at hr
  | succ f =>
    by_cases hle : b.low ≤ b.high
    · by_cases hok : (ask s (mid b)).1 = "OK"
      · rw [loop_ok ask f s hle hok] at hr
        cases hr
        rfl
      · by_cases hfl : (ask s (mid b)).1 = "FLOATS"
        · rw [loop_floats ask f s hle hfl] at hr
          obtain ⟨r', _, rfl⟩ := Option.map_eq_some'.mp hr
          rfl
        · rw [loop_other ask f s hle hok hfl] at hr
          obtain ⟨r', _, rfl⟩ := Option.map_eq_some'.mp hr
          rfl
    · rw [loop_exit ask f s hle] at hr
      cases hr
      rfl

/-! ## Interactor: the claims -/

/-- Claim C1 (correctness under an honest judge): for every target `T` with
`1 ≤ T ≤ 2000000000` and every judge that answers `"OK"` exactly to `T`, `"FLOATS"`
to larger candidates and another token to smaller ones, `solve` terminates (one run,
reached with every fuel of at least 32), issues at most 31 queries, and its last
query is `T`; that query is answered `"OK"` and no earlier one is. -/
theorem honest_judge_search {σ : Type} (ask : σ → Int → String × σ) (s : σ) (T : Int)
    (hT1 : 1 ≤ T) (hT2 : T ≤ 2000000000) (hon : Honest ask T) :
    ∃ r : Run σ, (∀ fuel, 32 ≤ fuel → solve ask s fuel = some r) ∧
      r.queries.length ≤ 31 ∧ r.queries.getLast? = some T ∧ r.viaOK = true ∧
      ∃ pre q, r.trace = pre ++ [q] ∧ q.cand = T ∧ q.res = "OK" ∧
        ∀ p ∈ pre, p.cand ≠ T ∧ p.res ≠ "OK" := by
  obtain ⟨r, hr, hlen⟩ := solve_terminates ask s
  have hstart : start.low ≤ T ∧ T ≤ start.high := by
    unfold start
    exact ⟨hT1, hT2⟩
  obtain ⟨hvia, pre, q, htr, hq1, hq2, hpre⟩ :=
    loop_honest ask T hon 32 s start r start_inv hstart.1 hstart.2 (hr 32 (Nat.le_refl 32))
  refine ⟨r, hr, ?_, ?_, hvia, pre, q, htr, hq1, hq2, hpre⟩
  · unfold Run.queries
    rw [List.length_map]
    exact hlen
  · unfold Run.queries
    rw [htr, List.map_append, List.map_singleton, List.getLast?_concat, hq1]

/-- The judge with target 1 is honest; against it `solve` issues 30 queries, the
last of them 1. -/
theorem honest_judge_search_witness :
    ((1 : Int) ≤ 1 ∧ (1 : Int) ≤ 2000000000) ∧
      (∃ r : Run Unit, (∀ fuel, 32 ≤ fuel → solve (judge 1) () fuel = some r) ∧
        r.queries.length ≤ 31 ∧ r.queries.getLast? = some 1 ∧ r.viaOK = true ∧
        ∃ pre q, r.trace = pre ++ [q] ∧ q.cand = 1 ∧ q.res = "OK" ∧
          ∀ p ∈ pre, p.cand ≠ 1 ∧ p.res ≠ "OK") ∧
      (solve (judge 1) () 32).map (fun r => (r.queries.length, r.queries.getLast?, r.viaOK)) =
        some (30, some 1, true) :=
  ⟨by decide, honest_judge_search (judge 1) () 1 (by decide) (by decide) (judge_honest 1),
    by decide⟩

/-- Claim C9 (single-step transition): in a searching state `(low, high)` with
`low ≤ high` (the sum `low + high` being representable, as it is in every state of
`solve`) the query is `mid = (low + high) / 2` with C++ division. The response
`"OK"` ends the run with this query as the last one and the bounds unchanged;
`"FLOATS"` continues from `(low, mid - 1)`; every other response, among them the
empty string and variants of `"OK"` and `"FLOATS"` in case or whitespace, continues
from `(mid + 1, high)`. -/
theorem single_step_transition {σ : Type} (ask : σ → Int → String × σ) (fuel : Nat) (s : σ)
    (b : Bounds) (hle : b.low ≤ b.high) (hsum : IsLongLong (b.low + b.high)) :
    mid b = Int.tdiv (b.low + b.high) 2 ∧
      branch b "OK" = Step.ret ∧
      branch b "FLOATS" = Step.next { low := b.low, high := mid b - 1 } ∧
      (∀ res, res ≠ "OK" → res ≠ "FLOATS" →
        branch b res = Step.next { low := mid b + 1, high := b.high }) ∧
      (∀ res ∈ ["", "ok", "Ok", "OK ", " OK", "OK\n", "floats", "Floats", "FLOATS ", " FLOATS",
          "FLOATS\n"], branch b res = Step.next { low := mid b + 1, high := b.high }) ∧
      ((ask s (mid b)).1 = "OK" →
        loop ask (fuel + 1) s b =
          some { trace := [{ bounds := b, cand := mid b, res := "OK" }], final := b,
                 viaOK := true, judge := (ask s (mid b)).2 }) ∧
      ((ask s (mid b)).1 = "FLOATS" →
        loop ask (fuel + 1) s b =
          (loop ask fuel (ask s (mid b)).2 { low := b.low, high := mid b - 1 }).map
            (Run.cons { bounds := b, cand := mid b, res := "FLOATS" })) ∧
      ((ask s (mid b)).1 ≠ "OK" → (ask s (mid b)).1 ≠ "FLOATS" →
        loop ask (fuel + 1) s b =
          (loop ask fuel (ask s (mid b)).2 { low := mid b + 1, high := b.high }).map
            (Run.cons { bounds := b, cand := mid b, res := (ask s (mid b)).1 })) := by
  have hmid := mid_eq_tdiv hsum
  have htd := tdiv_two_bounds (b.low + b.high)
  rw [← hmid] at htd
  have hsum' := hsum
  unfold IsLongLong at hsum'
  have hdec : wrap64 (mid b - 1) = mid b - 1 := by
    apply wrap64_eq_self
    unfold IsLongLong
    omega
  have hinc : wrap64 (mid b + 1) = mid b + 1 := by
    apply wrap64_eq_self
    unfold IsLongLong
    omega
  have hother : ∀ res, res ≠ "OK" → res ≠ "FLOATS" →
      branch b res = Step.next { low := mid b + 1, high := b.high } := by
    intro res h1 h2
    rw [branch_other b h1 h2, hinc]
  refine ⟨hmid, branch_ok b, ?_, hother, ?_, ?_, ?_, ?_⟩
  · rw [branch_floats, hdec]
  · intro res hres
    have hne : res ≠ "OK" ∧ res ≠ "FLOATS" := by
      revert res
      decide
    exact hother res hne.1 hne.2
  · exact fun hok => loop_ok ask fuel s hle hok
  · intro hfl
    rw [loop_floats ask fuel s hle hfl, hdec]
  · intro hok hfl
    rw [loop_other ask fuel s hle hok hfl, hinc]

/-- The first step of `solve`: from `(1, 2000000000)` the query is `1000000000`;
`"FLOATS"` leads to `(1, 999999999)` and the empty response to
`(1000000001, 2000000000)`. -/
theorem single_step_transition_witness :
    (start.low ≤ start.high ∧ IsLongLong (start.low + start.high)) ∧
      mid start = 1000000000 ∧
      branch start "FLOATS" = Step.next { low := 1, high := 999999999 } ∧
      branch start "" = Step.next { low := 1000000001, high := 2000000000 } := by
  have h := single_step_transition (judge 5) 0 () start (by decide) (by decide)
  have hm : mid start = 1000000000 := by decide
  refine ⟨by decide, hm, ?_, ?_⟩
  · rw [h.2.2.1, hm]
    rfl
  · rw [h.2.2.2.1 "" (by decide) (by decide), hm]
    rfl

/-- Claim C10 (bounds invariant, arbitrary judge): `solve` terminates, its first
state is `(1, 2000000000)`, and every state it goes through has
`1 ≤ low ≤ 2000000001`, `0 ≤ high ≤ 2000000000` and `low ≤ high + 1`; every executed
iteration has `low ≤ high` and queries `mid = (low + high) / 2` with
`low ≤ mid ≤ high`; so every candidate passed to `ask` lies in `[1, 2000000000]` and
is representable in a signed 32-bit `int`. -/
theorem bounds_invariant {σ : Type} (ask : σ → Int → String × σ) (s : σ) :
    ∃ r : Run σ, (∀ fuel, 32 ≤ fuel → solve ask s fuel = some r) ∧
      r.states.head? = some { low := 1, high := 2000000000 } ∧
      (∀ b ∈ r.states, 1 ≤ b.low ∧ b.low ≤ 2000000001 ∧ 0 ≤ b.high ∧ b.high ≤ 2000000000 ∧
        b.low ≤ b.high + 1) ∧
      (∀ q ∈ r.trace, q.bounds.low ≤ q.bounds.high ∧
        q.cand = Int.tdiv (q.bounds.low + q.bounds.high) 2 ∧
        q.bounds.low ≤ q.cand ∧ q.cand ≤ q.bounds.high) ∧
      (∀ x ∈ r.queries, 1 ≤ x ∧ x ≤ 2000000000 ∧ Checker.IsInt x) := by
  obtain ⟨r, hr, _⟩ := solve_terminates ask s
  have hrun : loop ask 32 s start = some r := hr 32 (Nat.le_refl 32)
  obtain ⟨htr, hfin⟩ := loop_inv ask 32 s start r start_inv hrun
  have hwide : ∀ b, Inv b → 1 ≤ b.low ∧ b.low ≤ 2000000001 ∧ 0 ≤ b.high ∧
      b.high ≤ 2000000000 ∧ b.low ≤ b.high + 1 := by
    intro b hb
    unfold Inv at hb
    omega
  refine ⟨r, hr, loop_head ask 32 s start r hrun, ?_, ?_, ?_⟩
  · intro b hb
    unfold Run.states at hb
    rcases List.mem_append.mp hb with hb | hb
    · obtain ⟨q, hq, rfl⟩ := List.mem_map.mp hb
      exact hwide _ (htr q hq).1
    · rw [List.mem_singleton] at hb
      subst hb
      exact hwide _ hfin
  · intro q hq
    obtain ⟨hinv, hle, hcand⟩ := htr q hq
    have hb := mid_bounds hinv hle
    have hll : IsLongLong (q.bounds.low + q.bounds.high) := by
      unfold Inv at hinv
      unfold IsLongLong
      omega
    rw [← mid_eq_tdiv hll, hcand]
    exact ⟨hle, rfl, hb.1, hb.2⟩
  · intro x hx
    unfold Run.queries at hx
    obtain ⟨q, hq, rfl⟩ := List.mem_map.mp hx
    obtain ⟨hinv, hle, hcand⟩ := htr q hq
    have hb := mid_bounds hinv hle
    unfold Inv at hinv
    unfold Checker.IsInt Checker.INT_MIN Checker.INT_MAX
    rw [hcand]
    omega

end Interactor

/-! ## Interactor: induction over runs -/

namespace Interactor

/-- Induction over the finished runs of the loop started from bounds satisfying the
invariant: a property holds of every run as soon as it holds of the run that finds
the loop condition false, of the run that receives `"OK"` at once, and is carried
from the rest of a run over an iteration answered `"FLOATS"` or with any other
response. -/
theorem loop_induction {σ : Type} (ask : σ → Int → String × σ)
    (P : σ → Bounds → Run σ → Prop)
    (hexit : ∀ s b, Inv b → ¬ b.low ≤ b.high →
      P s b { trace := [], final := b, viaOK := false, judge := s })
    (hok : ∀ s b, Inv b → b.low ≤ b.high → (ask s (mid b)).1 = "OK" →
      P s b { trace := [{ bounds := b, cand := mid b, res := "OK" }], final := b, viaOK := true,
              judge := (ask s (mid b)).2 })
    (hfloats : ∀ s b r, Inv b → b.low ≤ b.high → (ask s (mid b)).1 = "FLOATS" →
      Inv { low := b.low, high := mid b - 1 } →
      P (ask s (mid b)).2 { low := b.low, high := mid b - 1 } r →
      P s b (Run.cons { bounds := b, cand := mid b, res := "FLOATS" } r))
    (hother : ∀ s b r, Inv b → b.low ≤ b.high → (ask s (mid b)).1 ≠ "OK" →
      (ask s (mid b)).1 ≠ "FLOATS" → Inv { low := mid b + 1, high := b.high } →
      P (ask s (mid b)).2 { low := mid b + 1, high := b.high } r →
      P s b (Run.cons { bounds := b, cand := mid b, res := (ask s (mid b)).1 } r)) :
    ∀ (fuel : Nat) (s : σ) (b : Bounds) (r : Run σ), Inv b → loop ask fuel s b = some r →
      P s b r := by
  intro fuel
  induction fuel with
  | zero =>
    intro s b r _ hr
    simp [loop] at hr
  | succ f ih =>
    intro s b r hinv hr
    by_cases hle : b.low ≤ b.high
    · by_cases hres : (ask s (mid b)).1 = "OK"
      · rw [loop_ok ask f s hle hres] at hr
        cases hr
        exact hok s b hinv hle hres
      · by_cases hfl : (ask s (mid b)).1 = "FLOATS"
        · obtain ⟨hw, hinv', _⟩ := inv_floats hinv hle
          rw [loop_floats ask f s hle hfl, hw] at hr
          obtain ⟨r', hr', rfl⟩ := Option.map_eq_some'.mp hr
          exact hfloats s b r' hinv hle hfl hinv' (ih _ _ r' hinv' hr')
        · obtain ⟨hw, hinv', _⟩ := inv_other hinv hle
          rw [loop_other ask f s hle hres hfl, hw] at hr
          obtain ⟨r', hr', rfl⟩ := Option.map_eq_some'.mp hr
          exact hother s b r' hinv hle hres hfl hinv' (ih _ _ r' hinv' hr')
    · rw [loop_exit ask f s hle] at hr
      cases hr
      exact hexit s b hinv hle

/-- A judge that never answers `"OK"` to a candidate in `[1, 2000000000]`: the run
ends on a false loop condition with `low = high + 1`, and no response in it is
`"OK"`. -/
theorem loop_never_ok {σ : Type} (ask : σ → Int → String × σ)
    (hno : ∀ s x, 1 ≤ x → x ≤ 2000000000 → (ask s x).1 ≠ "OK") :
    ∀ (fuel : Nat) (s : σ) (b : Bounds) (r : Run σ), Inv b → loop ask fuel s b = some r →
      r.viaOK = false ∧ r.final.low = r.final.high + 1 ∧ ∀ q ∈ r.trace, q.res ≠ "OK" := by
  apply loop_induction ask
    (fun _ _ r => r.viaOK = false ∧ r.final.low = r.final.high + 1 ∧ ∀ q ∈ r.trace, q.res ≠ "OK")
  · intro s b hinv hle
    unfold Inv at hinv
    refine ⟨rfl, ?_, fun q hq => absurd hq (List.not_mem_nil q)⟩
    simp only
    omega
  · intro s b hinv hle hres
    have hb := mid_bounds hinv hle
    unfold Inv at hinv
    exact absurd hres (hno s (mid b) (by omega) (by omega))
  · intro s b r _ _ _ _ ih
    refine ⟨ih.1, ih.2.1, fun q hq => ?_⟩
    rw [trace_cons, List.mem_cons] at hq
    rcases hq with rfl | hq
    · exact show "FLOATS" ≠ "OK" by decide
    · exact ih.2.2 q hq
  · intro s b r _ _ hres _ _ ih
    refine ⟨ih.1, ih.2.1, fun q hq => ?_⟩
    rw [trace_cons, List.mem_cons] at hq
    rcases hq with rfl | hq
    · exact hres
    · exact ih.2.2 q hq

/-- An honest judge whose target lies outside `[1, 2000000000]` never answers `"OK"`
to a candidate inside. -/
theorem honest_outside_never_ok {σ : Type} {ask : σ → Int → String × σ} {T : Int}
    (hon : Honest ask T) (hT : T < 1 ∨ 2000000000 < T) :
    ∀ s x, 1 ≤ x → x ≤ 2000000000 → (ask s x).1 ≠ "OK" := by
  intro s x h1 h2 hres
  have hx : x = T := (hon s x).1.mp hres
  omega

end Interactor

/-! ## Interactor: exhaustion and midpoint arithmetic -/

namespace Interactor

/-- Claim C11 (silent exhaustion): for every judge that never answers `"OK"`, and
for every honest judge whose target lies outside `[1, 2000000000]`, `solve`
terminates (one run, reached with every fuel of at least 32); it leaves its loop on
a false condition with `low = high + 1`, no query having been answered `"OK"`; and
what it hands back to its caller is the same unit value as that of any run that
ended through the `"OK"` branch. -/
theorem silent_exhaustion {σ : Type} (ask : σ → Int → String × σ) (s : σ)
    (hno : (∀ s x, (ask s x).1 ≠ "OK") ∨ ∃ T, Honest ask T ∧ (T < 1 ∨ 2000000000 < T)) :
    ∃ r : Run σ, (∀ fuel, 32 ≤ fuel → solve ask s fuel = some r) ∧
      r.viaOK = false ∧ r.final.low = r.final.high + 1 ∧ (∀ q ∈ r.trace, q.res ≠ "OK") ∧
      ∀ (τ : Type) (r' : Run τ), r'.viaOK = true → r.result = r'.result := by
  have hrange : ∀ s x, 1 ≤ x → x ≤ 2000000000 → (ask s x).1 ≠ "OK" := by
    rcases hno with h | ⟨T, hon, hT⟩
    · exact fun s x _ _ => h s x
    · exact honest_outside_never_ok hon hT
  obtain ⟨r, hr, _⟩ := solve_terminates ask s
  obtain ⟨hvia, hfin, htr⟩ :=
    loop_never_ok ask hrange 32 s start r start_inv (hr 32 (Nat.le_refl 32))
  exact ⟨r, hr, hvia, hfin, htr, fun _ _ _ => rfl⟩

/-- The honest judge with target 0, outside the range: every query is answered
`"FLOATS"` and `solve` returns after 30 queries with `low = 1, high = 0`. -/
theorem silent_exhaustion_witness :
    (∃ r : Run Unit, (∀ fuel, 32 ≤ fuel → solve (judge 0) () fuel = some r) ∧
      r.viaOK = false ∧ r.final.low = r.final.high + 1 ∧ (∀ q ∈ r.trace, q.res ≠ "OK") ∧
      ∀ (τ : Type) (r' : Run τ), r'.viaOK = true → r.result = r'.result) ∧
      (solve (judge 0) () 32).map (fun r => (r.queries.length, r.viaOK, r.final)) =
        some (30, false, { low := 1, high := 0 }) :=
  ⟨silent_exhaustion (judge 0) () (Or.inr ⟨0, judge_honest 0, Or.inl (by decide)⟩), by decide⟩

/-- Claim C12 (midpoint arithmetic): for every judge, at every iteration `solve`
executes, `low` and `high` are positive and `2 ≤ low + high ≤ 4000000000`; the sum is
representable in `long long` (the wrapped sum is the sum), the candidate is the
truncated quotient of the sum by 2, and truncated, floor and Euclidean division by
2 agree on it. The sum can exceed the largest 32-bit `int`: against the honest judge
with target 2000000000 some iteration has `low + high > 2147483647`. -/
theorem midpoint_exact {σ : Type} (ask : σ → Int → String × σ) (s : σ) :
    (∃ r : Run σ, (∀ fuel, 32 ≤ fuel → solve ask s fuel = some r) ∧
      ∀ q ∈ r.trace, 1 ≤ q.bounds.low ∧ 1 ≤ q.bounds.high ∧
        2 ≤ q.bounds.low + q.bounds.high ∧ q.bounds.low + q.bounds.high ≤ 4000000000 ∧
        IsLongLong (q.bounds.low + q.bounds.high) ∧
        wrap64 (q.bounds.low + q.bounds.high) = q.bounds.low + q.bounds.high ∧
        q.cand = Int.tdiv (q.bounds.low + q.bounds.high) 2 ∧
        Int.tdiv (q.bounds.low + q.bounds.high) 2 = Int.fdiv (q.bounds.low + q.bounds.high) 2 ∧
        Int.tdiv (q.bounds.low + q.bounds.high) 2 = (q.bounds.low + q.bounds.high) / 2) ∧
      ∃ r : Run Unit, solve (judge 2000000000) () 32 = some r ∧
        ∃ q ∈ r.trace, 2147483647 < q.bounds.low + q.bounds.high := by
  constructor
  · obtain ⟨r, hr, _⟩ := solve_terminates ask s
    obtain ⟨htr, _⟩ := loop_inv ask 32 s start r start_inv (hr 32 (Nat.le_refl 32))
    refine ⟨r, hr, fun q hq => ?_⟩
    obtain ⟨hinv, hle, hcand⟩ := htr q hq
    unfold Inv at hinv
    have hll : IsLongLong (q.bounds.low + q.bounds.high) := by
      unfold IsLongLong
      omega
    have hnonneg : 0 ≤ q.bounds.low + q.bounds.high := by omega
    refine ⟨hinv.1, by omega, by omega, by omega, hll, wrap64_eq_self hll, ?_, ?_, ?_⟩
    · rw [hcand, mid_eq_tdiv hll]
    · rw [Int.tdiv_eq_ediv hnonneg (by decide), Int.fdiv_eq_ediv _ (by decide)]
    · exact Int.tdiv_eq_ediv hnonneg (by decide)
  · have hsome : (solve (judge 2000000000) () 32).isSome = true := by decide
    obtain ⟨r, hr⟩ := Option.isSome_iff_exists.mp hsome
    have hbig : ∃ q ∈ ((solve (judge 2000000000) () 32).map Run.trace).getD [],
        2147483647 < q.bounds.low + q.bounds.high := by decide
    rw [hr] at hbig
    exact ⟨r, hr, hbig⟩

end Interactor

/-! ## Interactor: termination, halving and distinct queries -/

namespace Interactor

theorem heads_cons {σ : Type} (q : Query) (r : Run σ) :
    (Run.cons q r).heads = q.bounds :: r.heads := rfl

/-- Along a run the interval at each evaluation of the loop condition holds at most
half as many integers (rounded down) as at the previous one, the first being the
bounds the loop was entered with; a loop entered with `low ≤ high` issues a query. -/
theorem loop_halving {σ : Type} (ask : σ → Int → String × σ) :
    ∀ (fuel : Nat) (s : σ) (b : Bounds) (r : Run σ), Inv b → loop ask fuel s b = some r →
      r.heads.head? = some b ∧ List.Chain' (fun x y : Bounds => y.size ≤ x.size / 2) r.heads ∧
        (b.low ≤ b.high → 1 ≤ r.trace.length) := by
  apply loop_induction ask
    (fun _ b r => r.heads.head? = some b ∧
      List.Chain' (fun x y : Bounds => y.size ≤ x.size / 2) r.heads ∧
      (b.low ≤ b.high → 1 ≤ r.trace.length))
  · intro s b _ hle
    exact ⟨rfl, List.chain'_singleton b, fun h => absurd h hle⟩
  · intro s b _ _ _
    exact ⟨rfl, List.chain'_singleton b, fun _ => Nat.le_refl 1⟩
  · intro s b r hinv hle _ _ ih
    obtain ⟨_, _, hhalf⟩ := inv_floats hinv hle
    refine ⟨rfl, ?_, fun _ => ?_⟩
    · rw [heads_cons, List.chain'_cons']
      refine ⟨fun y hy => ?_, ih.2.1⟩
      rw [ih.1, Option.mem_def, Option.some.injEq] at hy
      subst hy
      unfold Bounds.size
      simp only
      omega
    · rw [trace_cons, List.length_cons]
      omega
  · intro s b r hinv hle _ _ _ ih
    obtain ⟨_, _, hhalf⟩ := inv_other hinv hle
    refine ⟨rfl, ?_, fun _ => ?_⟩
    · rw [heads_cons, List.chain'_cons']
      refine ⟨fun y hy => ?_, ih.2.1⟩
      rw [ih.1, Option.mem_def, Option.some.injEq] at hy
      subst hy
      unfold Bounds.size
      simp only
      omega
    · rw [trace_cons, List.length_cons]
      omega

/-- From bounds satisfying the invariant with `low ≤ high`, every response other
than `"OK"` leads to bounds whose interval holds at most half as many integers. -/
theorem branch_halves {b : Bounds} (hinv : Inv b) (hle : b.low ≤ b.high) {res : String}
    (hres : res ≠ "OK") : ∃ b', branch b res = Step.next b' ∧ b'.size ≤ b.size / 2 := by
  by_cases hfl : res = "FLOATS"
  · obtain ⟨hw, _, hhalf⟩ := inv_floats hinv hle
    refine ⟨{ low := b.low, high := mid b - 1 }, ?_, ?_⟩
    · rw [hfl, branch_floats, hw]
    · unfold Bounds.size
      simp only
      omega
  · obtain ⟨hw, _, hhalf⟩ := inv_other hinv hle
    refine ⟨{ low := mid b + 1, high := b.high }, ?_, ?_⟩
    · rw [branch_other b hres hfl, hw]
    · unfold Bounds.size
      simp only
      omega

/-- Every candidate of a run lies within the bounds the loop was entered with; a
later candidate differs from an earlier one, is smaller when the earlier one was
answered `"FLOATS"`, and larger when it was answered neither `"OK"` nor `"FLOATS"`. -/
theorem loop_ordered {σ : Type} (ask : σ → Int → String × σ) :
    ∀ (fuel : Nat) (s : σ) (b : Bounds) (r : Run σ), Inv b → loop ask fuel s b = some r →
      (∀ q ∈ r.trace, b.low ≤ q.cand ∧ q.cand ≤ b.high) ∧
        r.trace.Pairwise (fun q p : Query => q.cand ≠ p.cand ∧
          (q.res = "FLOATS" → p.cand < q.cand) ∧
          (q.res ≠ "OK" → q.res ≠ "FLOATS" → q.cand < p.cand)) := by
  apply loop_induction ask
    (fun _ b r => (∀ q ∈ r.trace, b.low ≤ q.cand ∧ q.cand ≤ b.high) ∧
      r.trace.Pairwise (fun q p : Query => q.cand ≠ p.cand ∧
        (q.res = "FLOATS" → p.cand < q.cand) ∧
        (q.res ≠ "OK" → q.res ≠ "FLOATS" → q.cand < p.cand)))
  · intro s b _ _
    exact ⟨fun q hq => absurd hq (List.not_mem_nil q), List.Pairwise.nil⟩
  · intro s b hinv hle _
    refine ⟨fun q hq => ?_, List.pairwise_singleton _ _⟩
    rw [List.mem_singleton] at hq
    subst hq
    exact mid_bounds hinv hle
  · intro s b r hinv hle _ _ ih
    have hb := mid_bounds hinv hle
    refine ⟨fun q hq => ?_, ?_⟩
    · rw [trace_cons, List.mem_cons] at hq
      rcases hq with rfl | hq
      · exact hb
      · have hq' := ih.1 q hq
        simp only at hq'
        omega
    · rw [trace_cons, List.pairwise_cons]
      refine ⟨fun p hp => ?_, ih.2⟩
      have hp' := ih.1 p hp
      simp only at hp'
      refine ⟨?_, fun _ => ?_, fun _ h => absurd rfl h⟩
      · simp only
        omega
      · simp only
        omega
  · intro s b r hinv hle _ _ _ ih
    have hb := mid_bounds hinv hle
    refine ⟨fun q hq => ?_, ?_⟩
    · rw [trace_cons, List.mem_cons] at hq
      rcases hq with rfl | hq
      · exact hb
      · have hq' := ih.1 q hq
        simp only at hq'
        omega
    · rw [trace_cons, List.pairwise_cons]
      refine ⟨fun p hp => ?_, ih.2⟩
      have hp' := ih.1 p hp
      simp only at hp'
      refine ⟨?_, fun h => absurd h (by assumption), fun _ _ => ?_⟩
      · simp only
        omega
      · simp only
        omega

end Interactor

/-! ## Interactor: the claims on termination, distinct queries and tightness -/

namespace Interactor

/-- Claim C13 (termination for an arbitrary judge): for every response function,
`solve` terminates (one run, reached with every fuel of at least 32) after at least
1 and at most 31 queries. The reason: the search starts from `(1, 2000000000)`, at
each evaluation of the loop condition the size `high - low + 1` is at most half
(rounded down) of the previous one, and at every executed iteration any response
other than `"OK"` leads to bounds of at most half the size. -/
theorem terminates_for_any_judge {σ : Type} (ask : σ → Int → String × σ) (s : σ) :
    ∃ r : Run σ, (∀ fuel, 32 ≤ fuel → solve ask s fuel = some r) ∧
      1 ≤ r.queries.length ∧ r.queries.length ≤ 31 ∧
      r.heads.head? = some { low := 1, high := 2000000000 } ∧
      List.Chain' (fun x y : Bounds => y.size ≤ x.size / 2) r.heads ∧
      ∀ q ∈ r.trace, ∀ res : String, res ≠ "OK" →
        ∃ b', branch q.bounds res = Step.next b' ∧ b'.size ≤ q.bounds.size / 2 := by
  obtain ⟨r, hr, hlen⟩ := solve_terminates ask s
  have hrun : loop ask 32 s start = some r := hr 32 (Nat.le_refl 32)
  obtain ⟨hhead, hchain, hpos⟩ := loop_halving ask 32 s start r start_inv hrun
  obtain ⟨htr, _⟩ := loop_inv ask 32 s start r start_inv hrun
  have hstart : start.low ≤ start.high := by decide
  refine ⟨r, hr, ?_, ?_, hhead, hchain, fun q hq res hres => ?_⟩
  · unfold Run.queries
    rw [List.length_map]
    exact hpos hstart
  · unfold Run.queries
    rw [List.length_map]
    exact hlen
  · obtain ⟨hinv, hle, _⟩ := htr q hq
    exact branch_halves hinv hle hres

/-- Claim C15 (no query is repeated): for every judge, the candidates passed to
`ask` during the run of `solve` are pairwise distinct; every query issued after a
query answered `"FLOATS"` is strictly smaller than it, and every query issued after
a query answered neither `"OK"` nor `"FLOATS"` is strictly larger than it. -/
theorem queries_never_repeat {σ : Type} (ask : σ → Int → String × σ) (s : σ) :
    ∃ r : Run σ, (∀ fuel, 32 ≤ fuel → solve ask s fuel = some r) ∧
      r.queries.Nodup ∧
      r.trace.Pairwise (fun q p : Query =>
        (q.res = "FLOATS" → p.cand < q.cand) ∧
        (q.res ≠ "OK" → q.res ≠ "FLOATS" → q.cand < p.cand)) := by
  obtain ⟨r, hr, _⟩ := solve_terminates ask s
  obtain ⟨_, hpair⟩ := loop_ordered ask 32 s start r start_inv (hr 32 (Nat.le_refl 32))
  refine ⟨r, hr, ?_, hpair.imp fun h => h.2⟩
  unfold Run.queries List.Nodup
  rw [List.pairwise_map]
  exact hpair.imp fun h => h.1

/-- Any two judges honest for the same target receive the same candidates: the
queries against an honest judge are those against the stateless judge `judge T`. -/
theorem honest_queries_eq {σ : Type} (ask : σ → Int → String × σ) (T : Int)
    (hon : Honest ask T) :
    ∀ (fuel : Nat) (s : σ) (b : Bounds),
      (loop ask fuel s b).map Run.queries = (loop (judge T) fuel () b).map Run.queries := by
  intro fuel
  induction fuel with
  | zero =>
    intro s b
    rfl
  | succ f ih =>
    intro s b
    have hmapcons : ∀ (τ : Type) (q : Query) (o : Option (Run τ)),
        (o.map (Run.cons q)).map Run.queries = (o.map Run.queries).map (List.cons q.cand) := by
      intro τ q o
      cases o <;> rfl
    by_cases hle : b.low ≤ b.high
    · obtain ⟨hOK, hFl, hLow⟩ := hon s (mid b)
      obtain ⟨jOK, jFl, jLow⟩ := judge_honest T () (mid b)
      rcases lt_trichotomy (mid b) T with h | h | h
      · have h1 : (ask s (mid b)).1 ≠ "OK" := fun e => by have := hOK.mp e; omega
        have h2 : (judge T () (mid b)).1 ≠ "OK" := fun e => by have := jOK.mp e; omega
        rw [loop_other ask f s hle h1 (hLow h), loop_other (judge T) f () hle h2 (jLow h),
          hmapcons, hmapcons, ih]
      · rw [loop_ok ask f s hle (hOK.mpr h), loop_ok (judge T) f () hle (jOK.mpr h)]
        rfl
      · rw [loop_floats ask f s hle (hFl h), loop_floats (judge T) f () hle (jFl h),
          hmapcons, hmapcons, ih]
    · rw [loop_exit ask f s hle, loop_exit (judge T) f () hle]
      rfl

/-- Claim C16 (the bound of 31 queries is tight): there is a target in
`[1, 2000000000]`, namely 2000000000, against which every honest judge makes `solve`
issue exactly 31 queries: the first 30 are not answered `"OK"`, the 31st is the
target and is answered `"OK"`. So 30 queries do not suffice for every target. -/
theorem bound_31_is_tight :
    ∃ T : Int, 1 ≤ T ∧ T ≤ 2000000000 ∧
      ∀ (σ : Type) (ask : σ → Int → String × σ) (s : σ), Honest ask T →
        ∃ r : Run σ, (∀ fuel, 32 ≤ fuel → solve ask s fuel = some r) ∧
          r.queries.length = 31 ∧ ¬ r.queries.length ≤ 30 ∧
          r.queries.getLast? = some T ∧ r.viaOK = true ∧
          ∃ pre q, r.trace = pre ++ [q] ∧ pre.length = 30 ∧ q.cand = T ∧ q.res = "OK" ∧
            ∀ p ∈ pre, p.res ≠ "OK" := by
  refine ⟨2000000000, by decide, by decide, fun σ ask s hon => ?_⟩
  obtain ⟨r, hr, _⟩ := solve_terminates ask s
  have hrun : loop ask 32 s start = some r := hr 32 (Nat.le_refl 32)
  obtain ⟨hvia, pre, q, htr, hq1, hq2, hpre⟩ :=
    loop_honest ask 2000000000 hon 32 s start r start_inv (by decide) (by decide) hrun
  have hcount : ((loop (judge 2000000000) 32 () start).map Run.queries).map List.length =
      some 31 := by decide
  rw [← honest_queries_eq ask 2000000000 hon 32 s start, hrun] at hcount
  have hlen : r.queries.length = 31 := by
    simpa using hcount
  have hlen' : r.trace.length = 31 := by
    unfold Run.queries at hlen
    rwa [List.length_map] at hlen
  refine ⟨r, hr, hlen, by omega, ?_, hvia, pre, q, htr, ?_, hq1, hq2, fun p hp => (hpre p hp).2⟩
  · unfold Run.queries
    rw [htr, List.map_append, List.map_singleton, List.getLast?_concat, hq1]
  · rw [htr, List.length_append, List.length_singleton] at hlen'
    omega

end Interactor

/-! ## Checker: agreement with the specification over the integers -/

namespace Checker

/-- Claim C14 (32-bit arithmetic against the integers): for all `n, a, b, c, d` such
that `a + b` and `c + d` both lie in `[-2^31, 2^31 - 1]` (in particular for all `int`
values `a, b, c, d` whose sums do not overflow), the checker of the source, with its
sums taken modulo `2^32`, returns the same exit code, the same standard output and
the same error-stream text as the checker of the specification over the integers. -/
theorem main_agrees_with_checkSpec (n a b c d : Int) (hab : IsInt (a + b))
    (hcd : IsInt (c + d)) :
    (main n a b c d).exitCode = (checkSpec n a b c d).exitCode ∧
      (main n a b c d).stdout = (checkSpec n a b c d).stdout ∧
      (main n a b c d).stderr = (checkSpec n a b c d).stderr := by
  by_cases hsum : a + b = c + d
  · rw [main_eq_of_sums_eq n a b c d (wrap32_sums_eq hsum)]
    unfold checkSpec
    rw [if_neg (not_not.mpr hsum)]
    split <;> exact ⟨rfl, rfl, rfl⟩
  · have hne : wrap32 (a + b) ≠ wrap32 (c + d) :=
      fun h => hsum ((wrap32_sums_eq_iff hab hcd).mp h)
    rw [main_eq_of_sums_ne n a b c d hne, wrap32_eq_self hab]
    unfold checkSpec
    rw [if_pos hsum]
    exact ⟨rfl, rfl, rfl⟩

/-- Agreement at `int` values at the edge of the range, `a = 2147483647, b = 0,
c = -2147483648, d = 1`, where both programs report Wrong Answer with the same line;
one step further, at `a = 2147483647, b = 1, c = -2147483648, d = 0`, the sum `a + b`
overflows and the exit codes differ. -/
theorem main_agrees_with_checkSpec_witness :
    (IsInt ((2147483647 : Int) + 0) ∧ IsInt ((-2147483648 : Int) + 1)) ∧
      ((main 5 2147483647 0 (-2147483648) 1).exitCode =
          (checkSpec 5 2147483647 0 (-2147483648) 1).exitCode ∧
        (main 5 2147483647 0 (-2147483648) 1).stdout =
          (checkSpec 5 2147483647 0 (-2147483648) 1).stdout ∧
        (main 5 2147483647 0 (-2147483648) 1).stderr =
          (checkSpec 5 2147483647 0 (-2147483648) 1).stderr) ∧
      (main 5 2147483647 0 (-2147483648) 1).stdout = "a + b = 2147483647 != 5\n" ∧
      (main 5 2147483647 1 (-2147483648) 0).exitCode ≠
        (checkSpec 5 2147483647 1 (-2147483648) 0).exitCode :=
  ⟨by decide, main_agrees_with_checkSpec 5 2147483647 0 (-2147483648) 1 (by decide) (by decide),
    by decide, by decide⟩

end Checker
